import Mathlib

/-
Verification of the track seeding/joining engine (src/analysis.cc) and the
vertex fitter (src/tracker/analysis/vertex.cc) of the tracker repository.

Points are modelled with rational coordinates.  Library helpers that live
outside the provided sources (sorting utilities, within_dr, the bit-vector
combination enumerator) are modelled from the spec and marked as such in
their doc comments.  Code paths that perform an out-of-bounds container
access in the original C++ are modelled as returning none.
-/

/-- A hit or derived geometric position: the r4_point (t, x, y, z). -/
structure Point where
  t : ℚ
  x : ℚ
  y : ℚ
  z : ℚ
deriving DecidableEq, Repr

instance : Add Point where
  add p q := ⟨p.t + q.t, p.x + q.x, p.y + q.y, p.z + q.z⟩

instance : Sub Point where
  sub p q := ⟨p.t - q.t, p.x - q.x, p.y - q.y, p.z - q.z⟩

/-- Division of a point by a scalar count, as in sum / collected. -/
def Point.divBy (p : Point) (c : ℚ) : Point :=
  ⟨p.t / c, p.x / c, p.y / c, p.z / c⟩

/-- Insert an element into a list in front of the first element that is
not below it: the inner step of a stable insertion sort. -/
def insertAsc {α : Type} (le : α → α → Bool) (a : α) : List α → List α
  | [] => [a]
  | b :: bs => if le a b then a :: b :: bs else b :: insertAsc le a bs

/-- Modelled from the spec: the repository's sorting helpers (t_sort,
t_copy_sort, coordinate_stable_copy_sort, copy_sort_range from util headers
that are not under src/) sort a sequence ascending by a key; modelled as a
stable insertion sort. -/
def stableSort {α : Type} (le : α → α → Bool) : List α → List α
  | [] => []
  | a :: as => insertAsc le a (stableSort le as)

/-- Comparison of points ascending by time. -/
def tLe (p q : Point) : Bool :=
  decide (p.t ≤ q.t)

/-- Modelled from the spec: t_sort and t_copy_sort (util helpers not under
src/) sort an event ascending by t. -/
def tSort (l : List Point) : List Point :=
  stableSort tLe l

/-- The coordinate axis selector from analysis.hh. -/
inductive Coordinate where
  | T
  | X
  | Y
  | Z
deriving DecidableEq, Repr

/-- Projection of a point onto a coordinate axis. -/
def coordVal (c : Coordinate) (p : Point) : ℚ :=
  match c with
  | Coordinate.T => p.t
  | Coordinate.X => p.x
  | Coordinate.Y => p.y
  | Coordinate.Z => p.z

/-- Modelled from the spec: coordinate_stable_copy_sort (util helper not
under src/) stably sorts an event ascending by the chosen coordinate. -/
def coordSort (c : Coordinate) (l : List Point) : List Point :=
  stableSort (fun p q => decide (coordVal c p ≤ coordVal c q)) l

/-- time_normalize from src/analysis.cc: sort the event ascending by t and
subtract the point (event.front().t, 0, 0, 0) from every sorted point.
Note that the subtracted time is taken from the first point of the
unsorted input event. -/
def time_normalize : List Point → List Point
  | [] => []
  | p :: rest => (tSort (p :: rest)).map (fun q => q - ⟨p.t, 0, 0, 0⟩)

/-- Modelled from the spec: within_dr (util/math helper not under src/)
checks that two points lie within the spatial part of the box ds of each
other componentwise; the time window is checked separately by collapse. -/
def within_dr (p q ds : Point) : Bool :=
  decide (|p.x - q.x| ≤ ds.x) && decide (|p.y - q.y| ≤ ds.y) &&
    decide (|p.z - q.z| ≤ ds.z)

/-- The inner scan of collapse that advances past marked indices: C++
evaluates index++ inside the while condition, so index is incremented on
every test against a nonempty queue, including the failing one. -/
def markedScan : ℕ → List ℕ → ℕ × List ℕ
  | index, [] => (index, [])
  | index, f :: rest =>
      if index = f then markedScan (index + 1) rest else (index + 1, f :: rest)

/-- One run of the inner absorption loop of collapse from src/analysis.cc,
returning (index, marked queue, collected, sum, skipped, missed_index) at
loop exit.  A read of sorted_event past its end (reachable when the marked
queue advances the cursor to the container size) is modelled as none; the
fuel argument bounds the number of iterations and exceeds what the loop
can use whenever it is called with fuel above the event size. -/
def collapseInner (sorted : List Point) (ds : Point) (point : Point) :
    ℕ → ℕ → List ℕ → ℕ → Point → Bool → ℕ →
    Option (ℕ × List ℕ × ℕ × Point × Bool × ℕ)
  | 0, _, _, _, _, _, _ => none
  | fuel + 1, index, marked, collected, sum, skipped, missed =>
      let index1 := index + 1
      if index1 < sorted.length then
        let im := markedScan index1 marked
        match sorted.get? im.1 with
        | none => none
        | some next =>
            if next.t > point.t + ds.t then
              some (im.1, im.2, collected, sum, skipped, missed)
            else if within_dr point next ds then
              collapseInner sorted ds point fuel im.1
                (if skipped then im.2 ++ [im.1] else im.2)
                (collected + 1) (sum + next) skipped missed
            else if !skipped then
              collapseInner sorted ds point fuel im.1 im.2 collected sum true im.1
            else
              collapseInner sorted ds point fuel im.1 im.2 collected sum skipped missed
      else
        some (index1, marked, collected, sum, skipped, missed)

/-- The outer loop of collapse from src/analysis.cc: one iteration per
output cluster; when a point was skipped the cursor jumps back to it. -/
def collapseOuter (sorted : List Point) (ds : Point) :
    ℕ → ℕ → List ℕ → List Point → Option (List Point)
  | 0, _, _, _ => none
  | fuel + 1, index, marked, out =>
      match sorted.get? index with
      | none => some out
      | some point =>
          match collapseInner sorted ds point (sorted.length + 1)
              index marked 1 point false 0 with
          | none => none
          | some (index2, marked2, collected, sum, skipped, missed) =>
              collapseOuter sorted ds fuel
                (if skipped then missed else index2) marked2
                (out ++ [sum.divBy collected])

/-- collapse from src/analysis.cc: merge points lying within the space-time
box ds into averaged points, scanning the time-normalized event with a
single skip allowance.  The cursor strictly advances between outer
iterations, so fuel length+1 is never exhausted; an out-of-bounds read of
the sorted event yields none. -/
def collapse (event : List Point) (ds : Point) : Option (List Point) :=
  match event with
  | [] => some []
  | _ => collapseOuter (time_normalize event) ds (event.length + 1) 0 [] []

/-- One layer split step of partition from src/analysis.cc: a layer starts
at the first remaining point and absorbs subsequent points while their
chosen coordinate is at most the layer head's coordinate plus interval. -/
def layerSplit (interval : ℚ) (c : Coordinate) : List Point → List (List Point)
  | [] => []
  | p :: rest =>
      (p :: rest.takeWhile (fun q => decide (coordVal c q ≤ coordVal c p + interval))) ::
        layerSplit interval c
          (rest.dropWhile (fun q => decide (coordVal c q ≤ coordVal c p + interval)))
termination_by l => l.length
decreasing_by
  simp only [List.length_cons]
  exact Nat.lt_succ_of_le (List.dropWhile_sublist _).length_le

/-- The event_partition record from analysis.hh: the layers plus the
coordinate used to split them. -/
structure EventPartition where
  parts : List (List Point)
  coordinate : Coordinate
deriving DecidableEq, Repr

/-- partition from src/analysis.cc: stably sort by the chosen coordinate,
split into layers of width interval, and re-sort each layer by time. -/
def partition (points : List Point) (interval : ℚ) (c : Coordinate) :
    EventPartition :=
  match points with
  | [] => ⟨[], c⟩
  | _ => ⟨(layerSplit interval c (coordSort c points)).map tSort, c⟩

/-- fast_line_check from src/analysis.cc: the running maximum, seeded with
the threshold itself, of the point-line distance of every interior point
to the line through the first and last point must not exceed the
threshold.  The point-line distance function (util/math, not under src/)
is abstracted as the argument dist. -/
def fast_line_check (dist : Point → Point → Point → ℚ)
    (points : List Point) (threshold : ℚ) : Bool :=
  let lineBegin := points.headD ⟨0, 0, 0, 0⟩
  let lineEnd := points.getLastD ⟨0, 0, 0, 0⟩
  decide (threshold ≥ ((points.drop 1).dropLast).foldl
    (fun mx p => max mx (dist p lineBegin lineEnd)) threshold)

/-- Modelled from the spec: util::order2_permutations over one-bit-per-layer
bit vectors (util/bit_vector.hh, not under src/) enumerates every way to
choose exactly n of the layers and exactly one point within each chosen
layer, assembling each candidate tuple in layer order. -/
def layerChoices : ℕ → List (List Point) → List (List Point)
  | 0, _ => [[]]
  | _ + 1, [] => []
  | n + 1, layer :: rest =>
      (layer.map (fun p => (layerChoices n rest).map (fun s => p :: s))).flatten ++
        layerChoices (n + 1) rest
termination_by _ l => l.length

/-- seed from src/analysis.cc: reject n at most 2, collapse the event,
return the whole collapsed set as the single seed when its count is at
most n, partition by z, reject when fewer than n layers exist, and
otherwise keep exactly the n-point layer choices whose time-sorted tuple
passes fast_line_check. -/
def seed (n : ℕ) (event : List Point) (ds : Point) (layer_dz line_dr : ℚ)
    (dist : Point → Point → Point → ℚ) : Option (List (List Point)) :=
  if n ≤ 2 then some []
  else
    match collapse event ds with
    | none => none
    | some points =>
        if points.length ≤ n then some [points]
        else
          let layers := (partition points layer_dz Coordinate.Z).parts
          if layers.length < n then some []
          else some ((layerChoices n layers).filter
            (fun tuple => fast_line_check dist (tSort tuple) line_dr))

/-- join from src/analysis.cc: with overlap = first.length - difference
(truncated, matching the unsigned arithmetic), return empty when the
overlap is zero or exceeds second's length; otherwise splice second onto
first when first's overlap-length tail equals second's overlap-length
head, and return empty when some overlapping pair differs. -/
def join (first second : List Point) (difference : ℕ) : List Point :=
  let overlap := first.length - difference
  if overlap = 0 ∨ second.length < overlap then []
  else if first.drop difference = second.take overlap then
    first ++ second.drop overlap
  else []

/-- The state threaded through the join_all loop of src/analysis.cc: the
growing seed buffer, the two worklist queues of index vectors (front of
the queue at the head), and the output accumulator. -/
structure JoinState where
  buffer : List (List Point)
  joined : List (List ℕ)
  singular : List (List ℕ)
  out : List (List Point)
deriving DecidableEq, Repr

/-- _join_secondaries from src/analysis.cc: try to join the seed at
indices[seedIndex] with every seed referenced by indices, appending each
successful join to the buffer, recording its new buffer index, and marking
both participants in the join list.  The C++ keeps a reference to the
primary seed across buffer growth; it is modelled as the value read before
the loop. -/
def joinSecondaries (difference : ℕ) (indices : List ℕ) (seedIndex : ℕ)
    (st : List (List Point) × List Bool × List ℕ) :
    List (List Point) × List Bool × List ℕ :=
  let sd := st.1.getD (indices.getD seedIndex 0) []
  (List.range indices.length).foldl
    (fun st i =>
      let joinedSeed := join sd (st.1.getD (indices.getD i 0) []) difference
      if joinedSeed = [] then st
      else (st.1 ++ [joinedSeed],
            ((st.2.1.set i true).set seedIndex true,
             st.2.2 ++ [st.1.length])))
    st

/-- _partial_join from src/analysis.cc: a worklist of at most one index is
discarded without reaching the output; otherwise all pairs are tried, and
either the joined and unjoined index vectors are pushed onto the two
queues, or (when no join succeeded) every referenced seed is flushed to
the output. -/
def partialJoin (s : JoinState) (indices : List ℕ) (difference : ℕ) :
    JoinState :=
  if indices.length ≤ 1 then s
  else
    let res := (List.range indices.length).foldl
      (fun st seedIndex => joinSecondaries difference indices seedIndex st)
      (s.buffer, List.replicate indices.length false, ([] : List ℕ))
    if res.2.2 ≠ [] then
      { buffer := res.1,
        joined := s.joined ++ [res.2.2],
        singular := s.singular ++
          [((List.range indices.length).filter
              (fun i => !(res.2.1.getD i false))).map (fun i => indices.getD i 0)],
        out := s.out }
    else
      { buffer := res.1, joined := s.joined, singular := s.singular,
        out := s.out ++ indices.map (fun i => res.1.getD i []) }

/-- _join_next_in_queue on the joined queue, with difference 1 as in
_full_join. -/
def joinNextJoined (s : JoinState) : JoinState :=
  match s.joined with
  | [] => s
  | idxs :: rest => partialJoin { s with joined := rest } idxs 1

/-- _join_next_in_queue on the singular queue, with difference 2 as in
_full_join. -/
def joinNextSingular (s : JoinState) : JoinState :=
  match s.singular with
  | [] => s
  | idxs :: rest => partialJoin { s with singular := rest } idxs 2

/-- _full_join from src/analysis.cc: the do-while loop processing the two
queues until both are empty.  The fuel bounds the number of loop
iterations; the loop is not terminating for every conceivable seed set,
so the bound is an explicit argument of the embedding. -/
def fullJoinLoop : ℕ → JoinState → JoinState
  | 0, s => s
  | fuel + 1, s =>
      let s2 := joinNextSingular (joinNextJoined s)
      if s2.joined = [] ∧ s2.singular = [] then s2 else fullJoinLoop fuel s2

/-- join_all from src/analysis.cc: seed the buffer with the input seeds,
push the full index vector onto the joined queue and run the join loop,
returning the flushed output. -/
def joinAll (fuel : ℕ) (seeds : List (List Point)) : List (List Point) :=
  (fullJoinLoop fuel
    { buffer := seeds, joined := [List.range seeds.length],
      singular := [], out := [] }).out

/-- The fit_parameter record: a value with error and fit bounds. -/
structure FitParameter where
  value : ℚ
  error : ℚ
  min : ℚ
  max : ℚ
deriving DecidableEq, Repr

/-- The zero fit parameter, the value of fit_parameter{}. -/
def FitParameter.zero : FitParameter :=
  ⟨0, 0, 0, 0⟩

/-- vertex::fit_parameters: one fit parameter per vertex coordinate. -/
structure VertexFitParameters where
  t : FitParameter
  x : FitParameter
  y : FitParameter
  z : FitParameter
deriving DecidableEq, Repr

/-- The all-zero vertex parameters, the value of vertex::fit_parameters{}. -/
def VertexFitParameters.zero : VertexFitParameters :=
  ⟨FitParameter.zero, FitParameter.zero, FitParameter.zero, FitParameter.zero⟩

/-- The all-zero 4 by 4 covariance matrix in row-major order, the value of
covariance_matrix_type{}. -/
def zeroCovariance : List ℚ :=
  List.replicate 16 0

/-- The state of a vertex object from src/tracker/analysis/vertex.cc: the
owned track copies, guess and final fit parameters, the row-major
covariance matrix and the per-track chi-squared contributions.  Tracks are
opaque to the vertex fitter (the track class is not under src/), so the
track type is a parameter. -/
structure Vertex (Track : Type) where
  tracks : List Track
  guess : VertexFitParameters
  final : VertexFitParameters
  covariance : List ℚ
  delta_chi2 : List ℚ
deriving DecidableEq

/-- std::vector resize(n, 0): keep the first n elements and pad with
zeros up to length n. -/
def resizeZeros (xs : List ℚ) (n : ℕ) : List ℚ :=
  xs.take n ++ List.replicate (n - xs.length) 0

/-- vertex::reset from src/tracker/analysis/vertex.cc.  The external
collaborators are parameters: gv models _guess_vertex, fit models the
minuit run of _fit_tracks_minuit (none on divergence, otherwise the final
parameters and covariance), and resid models _vertex_squared_residual at
the final parameters.  With more than one track the guess is computed and
fitted; on success the per-track residuals are appended (the C++ uses a
back_insert_transform onto the existing _delta_chi2 vector without
clearing it) and the new size returned; otherwise _delta_chi2 is resized,
and final parameters and covariance are zeroed. -/
def vertexReset {Track : Type}
    (gv : List Track → VertexFitParameters)
    (fit : List Track → VertexFitParameters → Option (VertexFitParameters × List ℚ))
    (resid : VertexFitParameters → Track → ℚ)
    (v : Vertex Track) (tracks : List Track) : Vertex Track × ℕ :=
  if 1 < tracks.length then
    let g := gv tracks
    match fit tracks g with
    | some fc =>
        ({ tracks := tracks, guess := g, final := fc.1, covariance := fc.2,
           delta_chi2 := v.delta_chi2 ++ tracks.map (resid fc.1) },
         tracks.length)
    | none =>
        ({ tracks := tracks, guess := g, final := VertexFitParameters.zero,
           covariance := zeroCovariance,
           delta_chi2 := resizeZeros v.delta_chi2 tracks.length },
         tracks.length)
  else
    ({ tracks := tracks, guess := v.guess, final := VertexFitParameters.zero,
       covariance := zeroCovariance,
       delta_chi2 := resizeZeros v.delta_chi2 tracks.length },
     tracks.length)

/-- A vertex constructed from a track set: reset applied to the
default-initialized members. -/
def vertexNew {Track : Type}
    (gv : List Track → VertexFitParameters)
    (fit : List Track → VertexFitParameters → Option (VertexFitParameters × List ℚ))
    (resid : VertexFitParameters → Track → ℚ)
    (tracks : List Track) : Vertex Track :=
  (vertexReset gv fit resid
    ⟨[], VertexFitParameters.zero, VertexFitParameters.zero, zeroCovariance, []⟩
    tracks).1

/-- vertex::fit_diverged from src/tracker/analysis/vertex.cc: the guess
differs from the final parameters and the final parameters are the
default-constructed zeros. -/
def fitDiverged {Track : Type} (v : Vertex Track) : Bool :=
  decide (v.guess ≠ v.final) && decide (v.final = VertexFitParameters.zero)

/-- vertex::insert(track) from src/tracker/analysis/vertex.cc, as written:
the track is appended and the vertex refit only when std::find locates an
equal track already in the collection; otherwise the current size is
returned with no mutation. -/
def vertexInsert {Track : Type} [DecidableEq Track]
    (gv : List Track → VertexFitParameters)
    (fit : List Track → VertexFitParameters → Option (VertexFitParameters × List ℚ))
    (resid : VertexFitParameters → Track → ℚ)
    (v : Vertex Track) (track : Track) : Vertex Track × ℕ :=
  if track ∈ v.tracks then
    vertexReset gv fit resid v (v.tracks ++ [track])
  else
    (v, v.tracks.length)

/-- vertex::insert(track_vector) from src/tracker/analysis/vertex.cc, as
written: each given track is appended only when an equal track is already
present in the (growing) collection, then the vertex is reset from the
resulting track set. -/
def vertexInsertAll {Track : Type} [DecidableEq Track]
    (gv : List Track → VertexFitParameters)
    (fit : List Track → VertexFitParameters → Option (VertexFitParameters × List ℚ))
    (resid : VertexFitParameters → Track → ℚ)
    (v : Vertex Track) (tracks : List Track) : Vertex Track × ℕ :=
  vertexReset gv fit resid v
    (tracks.foldl (fun acc t => if t ∈ acc then acc ++ [t] else acc) v.tracks)

/-- The track-saving loop of vertex::remove(indices): walk the tracks,
advancing through the sorted removal list; the C++ reads
sorted[removal_index] unconditionally on every iteration, an out-of-bounds
access (modelled as none) whenever the sorted list has been exhausted
while tracks remain. -/
def removeLoop {Track : Type} (sorted : List ℕ) (tracks : List Track) :
    ℕ → ℕ → List Track → Option (List Track)
  | hitIndex, removalIndex, saved =>
      if h : hitIndex < tracks.length then
        match sorted.get? removalIndex with
        | none => none
        | some r =>
            if r = hitIndex then
              removeLoop sorted tracks (hitIndex + 1) (removalIndex + 1) saved
            else
              removeLoop sorted tracks (hitIndex + 1) removalIndex
                (saved ++ [tracks.get ⟨hitIndex, h⟩])
      else
        some saved
termination_by hitIndex _ _ => tracks.length - hitIndex

/-- vertex::remove(indices) from src/tracker/analysis/vertex.cc: sort a
copy of the removal indices ascending, keep the tracks the loop saves and
reset from them; none when the loop reads past the end of the sorted
list. -/
def vertexRemoveIndices {Track : Type}
    (gv : List Track → VertexFitParameters)
    (fit : List Track → VertexFitParameters → Option (VertexFitParameters × List ℚ))
    (resid : VertexFitParameters → Track → ℚ)
    (v : Vertex Track) (indices : List ℕ) : Option (Vertex Track × ℕ) :=
  match removeLoop (stableSort (fun a b => decide (a ≤ b)) indices)
      v.tracks 0 0 [] with
  | none => none
  | some saved => some (vertexReset gv fit resid v saved)

/-- vertex::prune_on_chi_squared from src/tracker/analysis/vertex.cc:
collect the indices whose entry of the pre-prune chi-squared vector
(the chi_squared_vector accessor returns _delta_chi2) exceeds the maximum,
then remove them. -/
def pruneOnChiSquared {Track : Type}
    (gv : List Track → VertexFitParameters)
    (fit : List Track → VertexFitParameters → Option (VertexFitParameters × List ℚ))
    (resid : VertexFitParameters → Track → ℚ)
    (v : Vertex Track) (maxChiSquared : ℚ) : Option (Vertex Track × ℕ) :=
  vertexRemoveIndices gv fit resid v
    ((List.range v.tracks.length).filter
      (fun i => decide (v.delta_chi2.getD i 0 > maxChiSquared)))

/-- The origin point. -/
def pO : Point := ⟨0, 0, 0, 0⟩

/-- A collapse window with a negative time component: no point is ever
absorbed, so collapse keeps every (time-normalized) point separate. -/
def dsNeg : Point := ⟨-1, 0, 0, 0⟩

/-- A concrete point-line distance returning zero everywhere; the distance
function is external to src (util/math), so concrete checks may pick any
instance. -/
def distZero : Point → Point → Point → ℚ := fun _ _ _ => 0

/-- Four points with distinct times and z-values spread more than one unit
apart: collapse (with dsNeg) keeps all four and the z-partition with
interval one yields four layers. -/
def e4 : List Point := [⟨0, 0, 0, 0⟩, ⟨1, 0, 0, 2⟩, ⟨2, 0, 0, 4⟩, ⟨3, 0, 0, 6⟩]

/-- The seed output of the main combinatorial path on e4 with n = 3. -/
def ss4 : List (List Point) :=
  [[⟨0, 0, 0, 0⟩, ⟨1, 0, 0, 2⟩, ⟨2, 0, 0, 4⟩],
   [⟨0, 0, 0, 0⟩, ⟨1, 0, 0, 2⟩, ⟨3, 0, 0, 6⟩],
   [⟨0, 0, 0, 0⟩, ⟨2, 0, 0, 4⟩, ⟨3, 0, 0, 6⟩],
   [⟨1, 0, 0, 2⟩, ⟨2, 0, 0, 4⟩, ⟨3, 0, 0, 6⟩]]

/-- The first member of ss4. -/
def s4 : List Point := [⟨0, 0, 0, 0⟩, ⟨1, 0, 0, 2⟩, ⟨2, 0, 0, 4⟩]

/-- Four points with distinct times but equal z: the z-partition with
interval one has a single layer. -/
def eFlat : List Point := [⟨0, 0, 0, 0⟩, ⟨1, 0, 0, 0⟩, ⟨2, 0, 0, 0⟩, ⟨3, 0, 0, 0⟩]

/-- Distinct concrete points for the join examples. -/
def pA : Point := ⟨0, 0, 0, 0⟩

/-- Second distinct concrete point. -/
def pB : Point := ⟨1, 1, 0, 0⟩

/-- Third distinct concrete point. -/
def pC : Point := ⟨2, 2, 0, 0⟩

/-- Fourth distinct concrete point. -/
def pD : Point := ⟨3, 3, 0, 0⟩

/-- A one fit parameter, giving a visibly non-zero guess. -/
def fpOne : FitParameter := ⟨1, 0, 0, 0⟩

/-- A concrete guess function with a non-zero time parameter. -/
def gvOne : List ℕ → VertexFitParameters :=
  fun _ => ⟨fpOne, FitParameter.zero, FitParameter.zero, FitParameter.zero⟩

/-- A concrete optimizer run that always diverges. -/
def fitNone : List ℕ → VertexFitParameters → Option (VertexFitParameters × List ℚ) :=
  fun _ _ => none

/-- A concrete per-track squared residual. -/
def residZero : VertexFitParameters → ℕ → ℚ := fun _ _ => 0

/-- A concrete vertex holding a single track (index label 42): the fit is
not attempted below two tracks, so its chi-squared vector is the single
zero entry. -/
def vOne : Vertex ℕ := vertexNew gvOne fitNone residZero [42]

/-- Inserting into a list permutes consing onto it. -/
theorem insertAsc_perm {α : Type} (le : α → α → Bool) (a : α) :
    ∀ l : List α, (insertAsc le a l).Perm (a :: l) := by
  intro l
  induction l with
  | nil => exact List.Perm.refl _
  | cons b bs ih =>
      rw [insertAsc]
      split
      · exact List.Perm.refl _
      · exact (ih.cons b).trans (List.Perm.swap a b bs)

/-- The modelled stable sort permutes its input. -/
theorem stableSort_perm {α : Type} (le : α → α → Bool) :
    ∀ l : List α, (stableSort le l).Perm l := by
  intro l
  induction l with
  | nil => exact List.Perm.refl _
  | cons a as ih =>
      exact (insertAsc_perm le a (stableSort le as)).trans (ih.cons a)

/-- Splitting into layers loses and duplicates nothing: the concatenation
of the split is the input. -/
theorem layerSplit_flatten (interval : ℚ) (c : Coordinate) :
    ∀ (n : ℕ) (l : List Point), l.length ≤ n →
      (layerSplit interval c l).flatten = l := by
  intro n
  induction n with
  | zero =>
      intro l h
      cases l with
      | nil => rw [layerSplit]; rfl
      | cons p rest => simp at h
  | succ n ih =>
      intro l h
      cases l with
      | nil => rw [layerSplit]; rfl
      | cons p rest =>
          rw [layerSplit]
          simp only [List.flatten_cons, List.cons_append]
          rw [ih (rest.dropWhile _)
            (Nat.le_trans (List.dropWhile_sublist _).length_le
              (Nat.le_of_succ_le_succ h))]
          rw [List.takeWhile_append_dropWhile]

/-- Time-sorting every layer keeps the concatenation a permutation. -/
theorem flatten_map_tSort_perm :
    ∀ L : List (List Point), ((L.map tSort).flatten).Perm L.flatten := by
  intro L
  induction L with
  | nil => exact List.Perm.refl _
  | cons l L ih =>
      simp only [List.map_cons, List.flatten_cons]
      exact (stableSort_perm tLe l).append ih

/-- C9: partition neither drops nor duplicates points: the layer sizes of
partition(event, interval, coordinate) sum to the event size, and the
concatenation of the layers is a permutation of the input points. -/
theorem C9_partition_conserves (points : List Point) (interval : ℚ)
    (c : Coordinate) :
    (((partition points interval c).parts.map List.length).sum = points.length) ∧
    ((partition points interval c).parts.flatten).Perm points := by
  have hperm : ((partition points interval c).parts.flatten).Perm points := by
    cases points with
    | nil => exact List.Perm.refl _
    | cons p rest =>
        show (((layerSplit interval c (coordSort c (p :: rest))).map tSort).flatten).Perm
          (p :: rest)
        refine (flatten_map_tSort_perm _).trans ?_
        rw [layerSplit_flatten interval c (coordSort c (p :: rest)).length _
          (Nat.le_refl _)]
        exact stableSort_perm _ _
  exact ⟨by rw [← List.length_flatten]; exact hperm.length_eq, hperm⟩

/-- Componentwise unfolding of point subtraction. -/
theorem Point.sub_def (p q : Point) :
    p - q = ⟨p.t - q.t, p.x - q.x, p.y - q.y, p.z - q.z⟩ := rfl

/-- Componentwise unfolding of point addition. -/
theorem Point.add_def (p q : Point) :
    p + q = ⟨p.t + q.t, p.x + q.x, p.y + q.y, p.z + q.z⟩ := rfl

/-- C1: the claim says vertex::insert(track) adds the track, refits and
returns the new count.  Evaluating the code on a vertex holding track 42
and a fresh track 7 shows the opposite: the membership test is inverted
(std::find(...) != cend() guards the insertion), so a track that is not
already present is never added, no refit happens, and the old count is
returned. -/
theorem C1_insert_skips_new_track :
    vertexInsert gvOne fitNone residZero vOne 7 = (vOne, 1) ∧
    (vertexInsert gvOne fitNone residZero vOne 7).1.tracks = [42] := by
  constructor
  · rfl
  · rfl

/-- C2 counterexample: with a = [pA, pB, pC] and b = [pC, pD], the last 1
point of a equals the first 1 point of b, yet join a b 1 returns the empty
sequence instead of the claimed splice a ++ b[1:], because the third
argument of join is the offset (overlap = length a - difference), not the
overlap size. -/
theorem C2_join_overlap_counterexample :
    ([pA, pB, pC].drop 2 = [pC, pD].take 1) ∧
    join [pA, pB, pC] [pC, pD] 1 = [] ∧
    ([pA, pB, pC] ++ [pC, pD].drop 1 : List Point) ≠ [] := by
  refine ⟨by decide, by decide, by decide⟩

/-- C2 amended: join(a, b, d) treats d as the offset of the overlap, whose
size is length a - d; the result is the splice a ++ b[(length a - d):]
exactly when that overlap size is at least 1, at most length b, and a's
tail from d equals b's head of that size, and the empty sequence
otherwise. -/
theorem C2_join_offset_splice (a b : List Point) (d : ℕ) :
    join a b d =
      if 0 < a.length - d ∧ a.length - d ≤ b.length ∧
          a.drop d = b.take (a.length - d)
      then a ++ b.drop (a.length - d) else [] := by
  unfold join
  by_cases h1 : a.length - d = 0 ∨ b.length < a.length - d
  · rw [if_pos h1, if_neg]
    intro hc
    rcases h1 with h | h
    · omega
    · omega
  · rw [if_neg h1]
    push_neg at h1
    by_cases h2 : a.drop d = b.take (a.length - d)
    · rw [if_pos h2, if_pos ⟨Nat.pos_of_ne_zero h1.1, h1.2, h2⟩]
    · rw [if_neg h2, if_neg]
      intro hc
      exact h2 hc.2.2

/-- C3: the claim says join_all never drops a seed that admits no join,
yet on the one-element input [[pA, pB, pC]] (whose only seed joins with
nothing, itself included) the output is empty for every iteration bound:
_partial_join discards a worklist of size at most one without flushing it
to the output. -/
theorem C3_unmatched_seed_dropped :
    ∀ fuel : ℕ, joinAll (fuel + 1) [[pA, pB, pC]] = [] := by
  intro fuel
  rfl

/-- C4: the claim says time_normalize subtracts (t_min, 0, 0, 0) so that
the first sorted point lands at time zero for any input order; the code
instead subtracts the time of the first point of the unsorted input, so
on [(5,0,0,0), (3,0,0,0)] the result is [(-2,...), (0,...)] and the first
point's time is not zero. -/
theorem C4_time_normalize_front_not_min :
    time_normalize [⟨5, 0, 0, 0⟩, ⟨3, 0, 0, 0⟩] =
      [⟨-2, 0, 0, 0⟩, ⟨0, 0, 0, 0⟩] ∧
    ((time_normalize [⟨5, 0, 0, 0⟩, ⟨3, 0, 0, 0⟩]).headD ⟨1, 1, 1, 1⟩).t ≠ 0 := by
  constructor
  · norm_num [time_normalize, tSort, stableSort, insertAsc, tLe, Point.sub_def]
  · norm_num [time_normalize, tSort, stableSort, insertAsc, tLe, Point.sub_def]

/-- Every tuple produced by the modelled layer-choice enumeration picks
exactly one point per chosen layer, so its length is the requested n. -/
theorem layerChoices_length :
    ∀ (L : List (List Point)) (n : ℕ) (s : List Point),
      s ∈ layerChoices n L → s.length = n := by
  intro L
  induction L with
  | nil =>
      intro n s h
      cases n with
      | zero =>
          simp only [layerChoices, List.mem_singleton] at h
          rw [h]
          rfl
      | succ n => simp [layerChoices] at h
  | cons layer rest ih =>
      intro n s h
      cases n with
      | zero =>
          simp only [layerChoices, List.mem_singleton] at h
          rw [h]
          rfl
      | succ n =>
          rw [layerChoices, List.mem_append] at h
          rcases h with h | h
          · rw [List.mem_flatten] at h
            obtain ⟨l, hl, hs⟩ := h
            rw [List.mem_map] at hl
            obtain ⟨p, _, rfl⟩ := hl
            rw [List.mem_map] at hs
            obtain ⟨s2, hs2, rfl⟩ := hs
            simp [ih n s2 hs2]
          · exact ih (n + 1) s h

/-- C5 counterexample: on the one-point event [pO] with n = 3 the collapsed
count (one) is at most n, so seed returns the whole collapsed set as a
single seed of length one, violating the claimed length-at-least-3
invariant. -/
theorem C5_short_uncurated_seed :
    seed 3 [pO] dsNeg 1 0 distZero = some [[pO]] ∧
    ¬ 3 ≤ ([pO] : List Point).length := by
  constructor
  · norm_num [seed, collapse, collapseOuter, collapseInner, markedScan,
      time_normalize, tSort, stableSort, insertAsc, tLe, Point.sub_def,
      Point.divBy, pO, dsNeg]
  · decide

/-- C5 amended: when the collapsed point count exceeds n (so the
combinatorial path runs), every output seed of seed(n, event, ...) with
n at least 3 has length n (hence at least 3) and its time-sorted tuple
passes fast_line_check with threshold line_dr; the early-return path for
collapsed count at most n returns the whole collapsed set unchecked. -/
theorem C5_seed_line_invariant (n : ℕ) (event : List Point) (ds : Point)
    (dz dr : ℚ) (dist : Point → Point → Point → ℚ)
    (pts : List Point) (ss : List (List Point)) (s : List Point)
    (hn : 2 < n) (hc : collapse event ds = some pts) (hlen : n < pts.length)
    (hs : seed n event ds dz dr dist = some ss) (hmem : s ∈ ss) :
    3 ≤ s.length ∧ fast_line_check dist (tSort s) dr = true := by
  simp only [seed, hc] at hs
  rw [if_neg (by omega), if_neg (by omega)] at hs
  by_cases hl : (partition pts dz Coordinate.Z).parts.length < n
  · rw [if_pos hl] at hs
    cases hs
    simp at hmem
  · rw [if_neg hl] at hs
    cases hs
    rw [List.mem_filter] at hmem
    have hln := layerChoices_length _ n s hmem.1
    exact ⟨by omega, hmem.2⟩

/-- C5 witness: the four-point event e4 exercises the combinatorial path;
its first output seed s4 satisfies the amended invariant. -/
theorem C5_seed_line_invariant_witness :
    2 < 3 ∧ collapse e4 dsNeg = some e4 ∧ 3 < e4.length ∧
    seed 3 e4 dsNeg 1 0 distZero = some ss4 ∧ s4 ∈ ss4 ∧
    (3 ≤ s4.length ∧ fast_line_check distZero (tSort s4) 0 = true) := by
  have hc : collapse e4 dsNeg = some e4 := by
    norm_num [collapse, collapseOuter, collapseInner, markedScan,
      time_normalize, tSort, stableSort, insertAsc, tLe, Point.sub_def,
      Point.divBy, within_dr, e4, dsNeg]
  have hs : seed 3 e4 dsNeg 1 0 distZero = some ss4 := by
    norm_num [seed, collapse, collapseOuter, collapseInner, markedScan,
      time_normalize, tSort, stableSort, insertAsc, tLe, Point.sub_def,
      Point.divBy, within_dr, partition, coordSort, layerSplit, coordVal,
      layerChoices, fast_line_check, distZero, e4, dsNeg, ss4]
  exact ⟨by norm_num, hc, by decide, hs, by decide,
    C5_seed_line_invariant 3 e4 dsNeg 1 0 distZero e4 ss4 s4
      (by norm_num) hc (by decide) hs (by decide)⟩

/-- C6: seed handles the degenerate input shapes by returning normally:
it returns the empty seed set whenever n is at most 2 (before collapse
even runs), the whole collapsed set as the single seed when the collapsed
count is at most n, and the empty seed set when the collapsed count
exceeds n but the z-partition has fewer than n layers. -/
theorem C6_seed_degenerate_shapes (n : ℕ) (event : List Point) (ds : Point)
    (dz dr : ℚ) (dist : Point → Point → Point → ℚ) (pts : List Point)
    (hc : collapse event ds = some pts) :
    (n ≤ 2 → seed n event ds dz dr dist = some []) ∧
    (2 < n → pts.length ≤ n → seed n event ds dz dr dist = some [pts]) ∧
    (2 < n → n < pts.length →
      (partition pts dz Coordinate.Z).parts.length < n →
      seed n event ds dz dr dist = some []) := by
  refine ⟨fun h => ?_, fun h2 hle => ?_, fun h2 hgt hlay => ?_⟩
  · simp only [seed]
    rw [if_pos h]
  · simp only [seed, hc]
    rw [if_neg (by omega), if_pos hle]
  · simp only [seed, hc]
    rw [if_neg (by omega), if_neg (by omega), if_pos hlay]

/-- C6 witness: the three degenerate shapes on concrete events: n = 2 is
rejected, a one-point event is returned whole, and a four-point event
falling into a single z-layer yields no seed. -/
theorem C6_seed_degenerate_shapes_witness :
    seed 2 [pO] dsNeg 1 0 distZero = some [] ∧
    seed 3 [pO] dsNeg 1 0 distZero = some [[pO]] ∧
    seed 3 eFlat dsNeg 1 0 distZero = some [] := by
  have hcO : collapse [pO] dsNeg = some [pO] := by
    norm_num [collapse, collapseOuter, collapseInner, markedScan,
      time_normalize, tSort, stableSort, insertAsc, tLe, Point.sub_def,
      Point.divBy, pO, dsNeg]
  have hcF : collapse eFlat dsNeg = some eFlat := by
    norm_num [collapse, collapseOuter, collapseInner, markedScan,
      time_normalize, tSort, stableSort, insertAsc, tLe, Point.sub_def,
      Point.divBy, within_dr, eFlat, dsNeg]
  have hlay : (partition eFlat 1 Coordinate.Z).parts.length < 3 := by
    norm_num [partition, coordSort, layerSplit, coordVal, stableSort,
      insertAsc, tSort, tLe, eFlat]
  exact ⟨(C6_seed_degenerate_shapes 2 [pO] dsNeg 1 0 distZero [pO] hcO).1
      (by norm_num),
    (C6_seed_degenerate_shapes 3 [pO] dsNeg 1 0 distZero [pO] hcO).2.1
      (by norm_num) (by decide),
    (C6_seed_degenerate_shapes 3 eFlat dsNeg 1 0 distZero eFlat hcF).2.2
      (by norm_num) (by decide) hlay⟩

/-- C7: the claim says prune_on_chi_squared(max) removes exactly the
tracks whose pre-prune chi-squared contribution exceeds max and then
refits.  Evaluating the code on a one-track vertex whose only
contribution is 0 with max 5 (so nothing should be removed and the count
1 returned) instead aborts: the removal loop of vertex::remove reads
sorted[0] of the empty sorted removal list, an out-of-bounds access. -/
theorem C7_prune_reads_past_removal_list :
    (∀ q ∈ vOne.delta_chi2, q ≤ 5) ∧
    pruneOnChiSquared gvOne fitNone residZero vOne 5 = none := by
  constructor
  · norm_num [vOne, vertexNew, vertexReset, resizeZeros]
  · norm_num [pruneOnChiSquared, vertexRemoveIndices, removeLoop, vOne,
      vertexNew, vertexReset, resizeZeros, stableSort, insertAsc, gvOne,
      fitNone, residZero, List.getD]

/-- C8: when a vertex is reset (or constructed) from at least two tracks
and the optimizer run fails, the final parameters and the covariance
matrix are zeroed while the guess keeps its computed value; provided that
computed guess is non-zero, fit_diverged() reports true. -/
theorem C8_diverged_state {Track : Type}
    (gv : List Track → VertexFitParameters)
    (fit : List Track → VertexFitParameters → Option (VertexFitParameters × List ℚ))
    (resid : VertexFitParameters → Track → ℚ)
    (v : Vertex Track) (tracks : List Track)
    (h2 : 2 ≤ tracks.length)
    (hfail : fit tracks (gv tracks) = none)
    (hnz : gv tracks ≠ VertexFitParameters.zero) :
    (vertexReset gv fit resid v tracks).1.final = VertexFitParameters.zero ∧
    (vertexReset gv fit resid v tracks).1.covariance = zeroCovariance ∧
    (vertexReset gv fit resid v tracks).1.guess = gv tracks ∧
    fitDiverged (vertexReset gv fit resid v tracks).1 = true := by
  simp only [vertexReset, hfail]
  rw [if_pos (by omega)]
  refine ⟨rfl, rfl, rfl, ?_⟩
  simp [fitDiverged, hnz]

/-- C8 witness: a concrete two-track reset with an always-diverging
optimizer and a non-zero guess lands in the distinguishable diverged
state. -/
theorem C8_diverged_state_witness :
    2 ≤ ([1, 2] : List ℕ).length ∧
    fitNone [1, 2] (gvOne [1, 2]) = none ∧
    gvOne [1, 2] ≠ VertexFitParameters.zero ∧
    ((vertexReset gvOne fitNone residZero vOne [1, 2]).1.final =
        VertexFitParameters.zero ∧
      (vertexReset gvOne fitNone residZero vOne [1, 2]).1.covariance =
        zeroCovariance ∧
      (vertexReset gvOne fitNone residZero vOne [1, 2]).1.guess =
        gvOne [1, 2] ∧
      fitDiverged (vertexReset gvOne fitNone residZero vOne [1, 2]).1 = true) :=
  ⟨by decide, rfl, by decide,
    C8_diverged_state gvOne fitNone residZero vOne [1, 2]
      (by decide) rfl (by decide)⟩

/-- C10: the claim says every access to the sorted copy of the removal
index list stays in bounds.  On a vertex holding one track,
vertex::remove with the empty index list (exactly what
prune_on_chi_squared produces when nothing exceeds the threshold) reads
sorted[0] of the empty sorted list: the embedded access fails. -/
theorem C10_remove_reads_past_sorted_end :
    vOne.tracks ≠ [] ∧
    vertexRemoveIndices gvOne fitNone residZero vOne [] = none := by
  constructor
  · norm_num [vOne, vertexNew, vertexReset, resizeZeros]
  · norm_num [vertexRemoveIndices, removeLoop, vOne, vertexNew, vertexReset,
      resizeZeros, stableSort, insertAsc, gvOne, fitNone, residZero]
